import Mathlib

set_option maxRecDepth 40000

deriving instance DecidableEq for Except

/-!
Verification of the data-cleaning pipeline of `solar-challenge-week0`
(`src/cleaning.py`, `src/preprocess.py`) over a shallow embedding.

A pandas DataFrame is modelled column-major: a table is an ordered list of
columns, each a name paired with the ordered list of its cell values.  A cell
is `missing` (NaN), a rational number (`num`), or a string (`str`).  Rationals
stand in for the floats of the source; every statistical test of the source
(`|z| > 3`, fence bounds) is translated to an exact rational inequality.
-/

/-- A cell of the table: NaN, a numeric value, or a categorical string. -/
inductive Value where
  | missing : Value
  | num : ℚ → Value
  | str : String → Value
deriving DecidableEq, Repr

/-- A pandas DataFrame, column-major: ordered columns, each a name with its
ordered list of cells. -/
abbrev Table := List (String × List Value)

/-- The ordered list of column labels (`df.columns`). -/
def colNames (t : Table) : List String := t.map (·.1)

/-- The number of cells of each column, in column order. -/
def colLengths (t : Table) : List Nat := t.map (·.2.length)

/- ----------------------------------------------------------------
Column-name normalization
`df.columns.str.strip().str.lower().str.replace(' ', '_')`
(`cleaning.clean_column_names`, `preprocess.standardize_columns`)
---------------------------------------------------------------- -/

/-- The whitespace characters removed by `str.strip()`. -/
def isSpaceChar (c : Char) : Bool :=
  c = ' ' || c = '\t' || c = '\n' || c = '\r'

/-- `str.lower()` on one character (the ASCII letters of the column labels). -/
def lowerChar (c : Char) : Char :=
  if 65 ≤ c.toNat ∧ c.toNat ≤ 90 then Char.ofNat (c.toNat + 32) else c

/-- `str.replace(' ', '_')` on one character. -/
def underscoreChar (c : Char) : Char :=
  if c = ' ' then '_' else c

/-- `str.strip()`: drop whitespace from both ends. -/
def stripChars (l : List Char) : List Char :=
  List.rdropWhile isSpaceChar (List.dropWhile isSpaceChar l)

/-- The column-name transform: strip, lowercase, spaces to underscores. -/
def normalizeName (s : String) : String :=
  ⟨((stripChars s.data).map lowerChar).map underscoreChar⟩

/-- `cleaning.clean_column_names`: rename every column, cells untouched.
The source has no collision check: two labels may normalize to the same
string, leaving duplicate labels in the result. -/
def clean_column_names (t : Table) : Table :=
  t.map fun nc => (normalizeName nc.1, nc.2)

/-- `preprocess.standardize_columns`: identical body to
`clean_column_names` (the repo keeps two copies of this function). -/
def standardize_columns (t : Table) : Table :=
  t.map fun nc => (normalizeName nc.1, nc.2)

/- ----------------------------------------------------------------
Column statistics (pandas `median`, `quantile`, `mean`, `std`, `mode`)
---------------------------------------------------------------- -/

/-- `pd.to_numeric(?, errors="coerce")` on one cell: numbers pass through,
anything non-numeric becomes NaN.  (Numeric text is represented as `num`
in this embedding, so `str` cells are the non-coercible ones.) -/
def toNumeric : Value → Value
  | .num q => .num q
  | _ => .missing

/-- The non-missing numeric values of a column, in row order
(`series.dropna()` on a numeric series). -/
def colNums (vs : List Value) : List ℚ :=
  vs.filterMap fun v => match v with | .num q => some q | _ => none

/-- Insert into a sorted list of rationals. -/
def insertSorted (x : ℚ) : List ℚ → List ℚ
  | [] => [x]
  | y :: ys => if x ≤ y then x :: y :: ys else y :: insertSorted x ys

/-- Sort rationals ascending (insertion sort). -/
def sortQ : List ℚ → List ℚ
  | [] => []
  | x :: xs => insertSorted x (sortQ xs)

/-- `series.median()`: middle of the sorted values, mean of the two middles
for even length, NaN (`none`) for an empty series. -/
def medianQ (xs : List ℚ) : Option ℚ :=
  let s := sortQ xs
  let n := s.length
  if n = 0 then none
  else if n % 2 = 1 then some (s.getD (n / 2) 0)
  else some ((s.getD (n / 2 - 1) 0 + s.getD (n / 2) 0) / 2)

/-- `series.quantile(p)` with the default linear-interpolation method:
position `h = p·(n−1)` in the sorted values, interpolated between the
neighbouring order statistics.  NaN (`none`) on an empty series. -/
def quantileLin (p : ℚ) (xs : List ℚ) : Option ℚ :=
  let s := sortQ xs
  let n := s.length
  if n = 0 then none
  else
    let h : ℚ := p * ((n : ℚ) - 1)
    let i : Nat := h.floor.toNat
    let g : ℚ := h - (i : ℚ)
    let lo := s.getD i 0
    let hi := s.getD (min (i + 1) (n - 1)) 0
    some (lo + g * (hi - lo))

/-- `series.mean()` over the non-missing values. -/
def meanQ (xs : List ℚ) : ℚ := xs.sum / (xs.length : ℚ)

/-- `series.std()` squared: the sample variance with `ddof = 1`,
`Σ (x − μ)² / (n − 1)`.  The source only ever compares `std` with `0` and
`|z|` with `3`; both comparisons are stated on the variance, exactly
(`std > 0 ↔ var > 0`, and `|x − μ|/σ > 3 ↔ (x − μ)² > 9·var` when `σ > 0`). -/
def sampleVar (xs : List ℚ) : ℚ :=
  (xs.map fun x => (x - meanQ xs) ^ 2).sum / ((xs.length : ℚ) - 1)

/- ----------------------------------------------------------------
Per-column cell rewriting shared by the stages of `cleaning.py`
---------------------------------------------------------------- -/

/-- `series.fillna(m)` where `m` may itself be NaN (`none`): filling with
NaN leaves the series unchanged. -/
def fillnaOpt (m : Option ℚ) (vs : List Value) : List Value :=
  match m with
  | none => vs
  | some q => vs.map fun v => match v with | .missing => .num q | w => w

/-- Column body of `cleaning.fill_missing_values`: coerce to numeric, then
fill NaN with the median of the non-missing values. -/
def fillCol (vs : List Value) : List Value :=
  fillnaOpt (medianQ (colNums (vs.map toNumeric))) (vs.map toNumeric)

/-- Column body of `cleaning.remove_outliers_zscore`: mean and std of the
non-missing coerced values; when `std > 0` (in the embedding:
`2 ≤ n ∧ 0 < sampleVar`, since pandas gives `std = NaN` for `n < 2` and
`NaN > 0` is false), every cell whose z-score exceeds 3 in absolute value —
exactly the cells with `(x − μ)² > 9·var` — is replaced by the median of the
non-missing values; NaN and non-numeric cells have NaN z-scores and are
never flagged. -/
def zscoreCol (vs : List Value) : List Value :=
  let xs := colNums (vs.map toNumeric)
  if 2 ≤ xs.length ∧ 0 < sampleVar xs then
    let μ := meanQ xs
    let med := (medianQ xs).getD 0
    vs.map fun v => match v with
      | .num q => if (q - μ) ^ 2 > 9 * sampleVar xs then .num med else .num q
      | w => w
  else vs

/-- Update every column named `c` by `f` (`df[c] = f(df[c])`). -/
def updateCol (t : Table) (c : String) (f : List Value → List Value) : Table :=
  t.map fun nc => if nc.1 = c then (nc.1, f nc.2) else nc

/-- The loop shared by `cleaning.fill_missing_values` and
`cleaning.remove_outliers_zscore`:
`for col in cols: if col in df.columns: df[col] = f(df[col])`. -/
def applyCols (t : Table) (cols : List String) (f : List Value → List Value) :
    Table :=
  cols.foldl (fun acc c => if c ∈ colNames acc then updateCol acc c f else acc) t

namespace Cleaning

/-- `cleaning.fill_missing_values(df, cols)`. -/
def fill_missing_values (t : Table) (cols : List String) : Table :=
  applyCols t cols fillCol

/-- `cleaning.remove_outliers_zscore(df, cols)`. -/
def remove_outliers_zscore (t : Table) (cols : List String) : Table :=
  applyCols t cols zscoreCol

end Cleaning

/- ----------------------------------------------------------------
`cleaning.handle_missing`: median for numeric columns, mode for object
columns, `"Unknown"` when the mode is empty
---------------------------------------------------------------- -/

/-- A column has pandas dtype `'O'` (object) when it holds textual data. -/
def isObjectDtype (vs : List Value) : Bool :=
  vs.any fun v => match v with | .str _ => true | _ => false

/-- The non-missing cells of a column, in row order. -/
def nonMissing (vs : List Value) : List Value :=
  vs.filter fun v => v ≠ Value.missing

/-- The highest frequency among the non-missing cells. -/
def maxCount (vs : List Value) : Nat :=
  ((nonMissing vs).map fun v => (nonMissing vs).count v).foldl max 0

/-- The ascending order pandas sorts modal values in: numbers before
strings, numbers by value, strings lexicographically.  (The data never
mixes numbers and strings inside one object column here; the cross cases
just fix a total order.) -/
def valueLE : Value → Value → Bool
  | .missing, _ => true
  | _, .missing => false
  | .num a, .num b => a ≤ b
  | .num _, .str _ => true
  | .str _, .num _ => false
  | .str a, .str b => a ≤ b

/-- Least element of a nonempty list under `valueLE`. -/
def pickMin (c : Value) (cs : List Value) : Value :=
  cs.foldl (fun a b => if valueLE b a then b else a) c

/-- `series.mode()[0]`: pandas returns the distinct non-missing values of
maximal frequency sorted ascending; index `[0]` reads off the least.
`none` models the `mode().empty` case (no non-missing value). -/
def modeVal (vs : List Value) : Option Value :=
  match (nonMissing vs).dedup.filter
      (fun v => (nonMissing vs).count v = maxCount vs) with
  | [] => none
  | c :: cs => some (pickMin c cs)

/-- `series.fillna(m)` with a categorical fill value. -/
def fillAllMissing (m : Value) (vs : List Value) : List Value :=
  vs.map fun v => match v with | .missing => m | w => w

/-- Column body of `cleaning.handle_missing`: object columns get the mode
(or `"Unknown"` when the mode is empty), other columns get the median. -/
def handleCol (vs : List Value) : List Value :=
  if isObjectDtype vs then
    fillAllMissing ((modeVal vs).getD (Value.str "Unknown")) vs
  else
    fillnaOpt (medianQ (colNums vs)) vs

/-- `cleaning.handle_missing(df)`: every column, no target list. -/
def handle_missing (t : Table) : Table :=
  t.map fun nc => (nc.1, handleCol nc.2)

/- ----------------------------------------------------------------
`cleaning.remove_duplicates`: `df.drop_duplicates()`, keep first occurrence
---------------------------------------------------------------- -/

/-- `len(df)`. -/
def numRows (t : Table) : Nat := ((t.head?).map (·.2.length)).getD 0

/-- Row `i` of the table (NaN past a column's end). -/
def rowAt (t : Table) (i : Nat) : List Value := t.map fun nc => nc.2.getD i .missing

/-- Row `i` is kept iff no earlier row is cell-for-cell equal to it
(pandas treats NaN as equal to NaN for this comparison). -/
def keepRowMask (t : Table) : List Bool :=
  (List.range (numRows t)).map fun i => decide (∀ j < i, rowAt t j ≠ rowAt t i)

/-- Restrict a column to the rows selected by a Boolean mask. -/
def filterMask (mask : List Bool) (vs : List Value) : List Value :=
  (mask.zip vs).filterMap fun p => if p.1 then some p.2 else none

/-- `cleaning.remove_duplicates(df)` (the removed-rows count it prints is
observability only). -/
def remove_duplicates (t : Table) : Table :=
  t.map fun nc => (nc.1, filterMask (keepRowMask t) nc.2)

/- ----------------------------------------------------------------
`cleaning.remove_outliers`: the IQR policy.  The source filters the frame,
`df = df[(df[col] >= lower) & (df[col] <= upper)]`, so rows are dropped,
not repaired; a NaN cell fails both comparisons and its row is dropped
too, and an empty column gives NaN bounds, dropping every row.  There is
no `col in df.columns` check: an absent label raises a `KeyError`.
---------------------------------------------------------------- -/

/-- Fence bounds `[q1 − factor·iqr, q3 + factor·iqr]`; `none` models the
NaN bounds of an empty column. -/
def iqrBounds (factor : ℚ) (xs : List ℚ) : Option (ℚ × ℚ) :=
  match quantileLin (1/4) xs, quantileLin (3/4) xs with
  | some q1, some q3 => some (q1 - factor * (q3 - q1), q3 + factor * (q3 - q1))
  | _, _ => none

/-- `(x >= lower) & (x <= upper)`: false for NaN cells, NaN bounds, and
non-numeric cells (pandas comparisons with NaN are false). -/
def keepCell (bounds : Option (ℚ × ℚ)) : Value → Bool
  | .num x => match bounds with
    | some b => decide (b.1 ≤ x) && decide (x ≤ b.2)
    | none => false
  | _ => false

/-- `df[c]`: the first column labelled `c`, if any. -/
def lookupCol (t : Table) (c : String) : Option (List Value) :=
  (t.find? fun nc => nc.1 == c).map (·.2)

/-- Keep only the rows selected by the mask, in every column. -/
def filterTable (t : Table) (mask : List Bool) : Table :=
  t.map fun nc => (nc.1, filterMask mask nc.2)

/-- One iteration of the `remove_outliers` loop on column `c`. -/
def iqrStep (factor : ℚ) (t : Table) (c : String) : Except String Table :=
  match lookupCol t c with
  | none => .error c
  | some vs =>
    if isObjectDtype vs then .ok t
    else .ok (filterTable t (vs.map (keepCell (iqrBounds factor (colNums vs)))))

def removeOutliersGo (factor : ℚ) : Table → List String → Except String Table
  | t, [] => .ok t
  | t, c :: cs =>
    match iqrStep factor t c with
    | .error e => .error e
    | .ok u => removeOutliersGo factor u cs

/-- `cleaning.remove_outliers(df, cols, factor=1.5)`. -/
def remove_outliers (t : Table) (cols : List String) (factor : ℚ := 3/2) :
    Except String Table :=
  removeOutliersGo factor t cols

/- ----------------------------------------------------------------
`preprocess.py`: the second, divergent copy of the cleaning stages, and
the pipeline composition
---------------------------------------------------------------- -/

namespace Preprocess

/-- `preprocess.fill_missing_values`: the source coerces
(`df[col] = pd.to_numeric(df[col], errors="coerce")`) but then evaluates
`df[col].fillna(df[col].median())` without assigning it back, so the fill
is discarded and only the coercion reaches the returned frame. -/
def fill_missing_values (t : Table) (cols : List String) : Table :=
  applyCols t cols fun vs => vs.map toNumeric

/-- Column body of `preprocess.remove_outliers_zscore`.  The source has no
explicit `std > 0` guard, but the float semantics give the same no-flag
outcome: `std` is NaN for fewer than 2 values, and for a zero `std` every
deviation is 0, so every z-score is `0/0 = NaN` and `NaN > 3` is false.
The flag condition is therefore `2 ≤ n ∧ 0 < var ∧ (x − μ)² > 9·var`,
as in `cleaning.remove_outliers_zscore`. -/
def zscoreColPP (vs : List Value) : List Value :=
  let xs := colNums vs
  if 2 ≤ xs.length ∧ 0 < sampleVar xs then
    vs.map fun v => match v with
      | .num q => if (q - meanQ xs) ^ 2 > 9 * sampleVar xs then
          .num ((medianQ xs).getD 0) else .num q
      | w => w
  else vs

/-- `preprocess.remove_outliers_zscore(df, cols)`. -/
def remove_outliers_zscore (t : Table) (cols : List String) : Table :=
  applyCols t cols zscoreColPP

/-- The fixed column set of `preprocess.preprocess_dataset`. -/
def keyCols : List String :=
  ["ghi", "dni", "dhi", "moda", "modb", "ws", "wsgust", "tamb", "rh"]

/-- `preprocess.preprocess_dataset(df, country)` minus the external CSV
save (the `country` argument only names the output file): standardize the
column labels, run the (broken) fill, run the Z-score correction.  No
duplicate-removal stage appears in the source. -/
def preprocess_dataset (t : Table) : Table :=
  remove_outliers_zscore (fill_missing_values (standardize_columns t) keyCols) keyCols

end Preprocess

/- Idempotence of the name transform. -/

theorem ne_of_toNat_ne {d e : Char} (h : d.toNat ≠ e.toNat) : d ≠ e :=
  fun he => h (congrArg Char.toNat he)

theorem toNat_ofNat_of_lt {n : Nat} (h : n < 55296) : (Char.ofNat n).toNat = n := by
  have hv : n.isValidChar := Or.inl h
  unfold Char.ofNat
  rw [dif_pos hv]
  rfl

theorem isSpaceChar_eq_false {d : Char} (h1 : d ≠ ' ') (h2 : d ≠ '\t')
    (h3 : d ≠ '\n') (h4 : d ≠ '\r') : isSpaceChar d = false := by
  unfold isSpaceChar
  simp [h1, h2, h3, h4]

/-- `lowerChar` then `underscoreChar` never produces whitespace from a
non-whitespace character. -/
theorem lower_underscore_not_space {c : Char} (h : isSpaceChar c = false) :
    isSpaceChar (underscoreChar (lowerChar c)) = false := by
  unfold lowerChar
  by_cases hAZ : 65 ≤ c.toNat ∧ c.toNat ≤ 90
  · rw [if_pos hAZ]
    obtain ⟨hlo, hhi⟩ := hAZ
    have htn : (Char.ofNat (c.toNat + 32)).toNat = c.toNat + 32 :=
      toNat_ofNat_of_lt (by omega)
    have hsp : Char.ofNat (c.toNat + 32) ≠ ' ' := by
      apply ne_of_toNat_ne; rw [htn]
      have : (' ' : Char).toNat = 32 := rfl
      omega
    unfold underscoreChar
    rw [if_neg hsp]
    apply isSpaceChar_eq_false
    · exact hsp
    · apply ne_of_toNat_ne; rw [htn]
      have : ('\t' : Char).toNat = 9 := rfl
      omega
    · apply ne_of_toNat_ne; rw [htn]
      have : ('\n' : Char).toNat = 10 := rfl
      omega
    · apply ne_of_toNat_ne; rw [htn]
      have : ('\r' : Char).toNat = 13 := rfl
      omega
  · rw [if_neg hAZ]
    unfold underscoreChar
    by_cases hsp : c = ' '
    · subst hsp; simp [isSpaceChar] at h
    · rw [if_neg hsp]; exact h

/-- One character-level pass of lower-then-underscore is idempotent. -/
theorem lower_underscore_idem (c : Char) :
    underscoreChar (lowerChar (underscoreChar (lowerChar c))) =
      underscoreChar (lowerChar c) := by
  unfold lowerChar underscoreChar
  by_cases hAZ : 65 ≤ c.toNat ∧ c.toNat ≤ 90
  · rw [if_pos hAZ]
    obtain ⟨hlo, hhi⟩ := hAZ
    have htn : (Char.ofNat (c.toNat + 32)).toNat = c.toNat + 32 :=
      toNat_ofNat_of_lt (by omega)
    have hsp : Char.ofNat (c.toNat + 32) ≠ ' ' := by
      apply ne_of_toNat_ne; rw [htn]
      have : (' ' : Char).toNat = 32 := rfl
      omega
    rw [if_neg hsp]
    have hnAZ : ¬(65 ≤ (Char.ofNat (c.toNat + 32)).toNat ∧
        (Char.ofNat (c.toNat + 32)).toNat ≤ 90) := by
      rw [htn]; omega
    rw [if_neg hnAZ, if_neg hsp]
  · rw [if_neg hAZ]
    by_cases hsp : c = ' '
    · rw [if_pos hsp]
      have h1 : ¬(65 ≤ ('_' : Char).toNat ∧ ('_' : Char).toNat ≤ 90) := by decide
      have h2 : ('_' : Char) ≠ ' ' := by decide
      rw [if_neg h1, if_neg h2]
    · rw [if_neg hsp, if_neg hAZ, if_neg hsp]

theorem dropWhile_head_false {p : Char → Bool} {l : List Char} {c : Char}
    {cs : List Char} (h : l.dropWhile p = c :: cs) : p c = false := by
  induction l with
  | nil => simp at h
  | cons a as ih =>
    rw [List.dropWhile_cons] at h
    by_cases hp : p a
    · simp [hp] at h; exact ih h
    · simp [hp] at h
      obtain ⟨h1, _⟩ := h
      subst h1
      simpa using hp

theorem dropWhile_of_head_false {p : Char → Bool} {c : Char} {cs : List Char}
    (h : p c = false) : (c :: cs).dropWhile p = c :: cs := by
  simp [List.dropWhile_cons, h]

/-- A list whose head and last characters are not whitespace is fixed by
`stripChars`. -/
theorem stripChars_fixed {l : List Char}
    (hhead : ∀ c cs, l = c :: cs → isSpaceChar c = false)
    (hlast : ∀ c cs, l.reverse = c :: cs → isSpaceChar c = false) :
    stripChars l = l := by
  unfold stripChars
  have hd : l.dropWhile isSpaceChar = l := by
    cases hl : l with
    | nil => simp
    | cons c cs => exact dropWhile_of_head_false (hhead c cs hl)
  rw [hd]
  unfold List.rdropWhile
  have hr : l.reverse.dropWhile isSpaceChar = l.reverse := by
    cases hl : l.reverse with
    | nil => simp [hl]
    | cons c cs => exact dropWhile_of_head_false (hlast c cs hl)
  rw [hr, List.reverse_reverse]

theorem stripChars_head_false {l : List Char} {c : Char} {cs : List Char}
    (h : stripChars l = c :: cs) : isSpaceChar c = false := by
  have hpre : (c :: cs) <+: l.dropWhile isSpaceChar := by
    rw [← h]
    unfold stripChars
    exact List.rdropWhile_prefix _ _
  obtain ⟨tail, htail⟩ := hpre
  have hd : l.dropWhile isSpaceChar = c :: (cs ++ tail) := by
    rw [← htail]; rfl
  exact dropWhile_head_false hd

theorem stripChars_last_false {l : List Char} {c : Char} {cs : List Char}
    (h : (stripChars l).reverse = c :: cs) : isSpaceChar c = false := by
  unfold stripChars List.rdropWhile at h
  rw [List.reverse_reverse] at h
  exact dropWhile_head_false h

theorem normalizeName_idem (s : String) :
    normalizeName (normalizeName s) = normalizeName s := by
  unfold normalizeName
  congr 1
  show List.map underscoreChar (List.map lowerChar
      (stripChars (List.map underscoreChar (List.map lowerChar (stripChars s.data)))))
      = List.map underscoreChar (List.map lowerChar (stripChars s.data))
  rw [List.map_map, List.map_map]
  set f : Char → Char := underscoreChar ∘ lowerChar with hf
  have hfns : ∀ c, isSpaceChar c = false → isSpaceChar (f c) = false := by
    intro c hc; exact lower_underscore_not_space hc
  have hm : stripChars ((stripChars s.data).map f) = (stripChars s.data).map f := by
    apply stripChars_fixed
    · intro c cs hcc
      rcases hds : stripChars s.data with _ | ⟨d, ds⟩
      · rw [hds] at hcc; simp at hcc
      · rw [hds] at hcc
        simp only [List.map_cons, List.cons.injEq] at hcc
        obtain ⟨hc, _⟩ := hcc
        rw [← hc]
        exact hfns d (stripChars_head_false hds)
    · intro c cs hcc
      rw [← List.map_reverse] at hcc
      rcases hds : (stripChars s.data).reverse with _ | ⟨d, ds⟩
      · rw [hds] at hcc; simp at hcc
      · rw [hds] at hcc
        simp only [List.map_cons, List.cons.injEq] at hcc
        obtain ⟨hc, _⟩ := hcc
        rw [← hc]
        exact hfns d (stripChars_last_false hds)
  rw [hm, List.map_map]
  apply List.map_congr_left
  intro c _
  exact lower_underscore_idem c

/- ----------------------------------------------------------------
Characterization of the shared column loop
---------------------------------------------------------------- -/

/-- Each pass of the loop rewrites every column named `c` once; a name that
occurs `k` times in the target list is rewritten `k` times. -/
theorem applyCols_eq_map (f : List Value → List Value) :
    ∀ (cols : List String) (t : Table),
    applyCols t cols f = t.map fun nc => (nc.1, f^[cols.count nc.1] nc.2) := by
  intro cols
  induction cols with
  | nil =>
    intro t
    show t = t.map fun nc => (nc.1, f^[List.count nc.1 []] nc.2)
    simp
  | cons c cs ih =>
    intro t
    have hstep : applyCols t (c :: cs) f
        = applyCols (if c ∈ colNames t then updateCol t c f else t) cs f := rfl
    rw [hstep]
    by_cases hc : c ∈ colNames t
    · rw [if_pos hc, ih, updateCol, List.map_map]
      apply List.map_congr_left
      intro nc _
      simp only [Function.comp_apply]
      by_cases h1 : nc.1 = c
      · rw [if_pos h1]
        show (nc.1, f^[cs.count nc.1] (f nc.2)) = (nc.1, f^[(c :: cs).count nc.1] nc.2)
        rw [h1, List.count_cons_self, Function.iterate_succ_apply]
      · rw [if_neg h1]
        show (nc.1, f^[cs.count nc.1] nc.2) = (nc.1, f^[(c :: cs).count nc.1] nc.2)
        rw [List.count_cons_of_ne h1]
    · rw [if_neg hc, ih]
      apply List.map_congr_left
      intro nc hnc
      have h1 : nc.1 ≠ c := by
        intro he
        exact hc (by rw [← he]; exact List.mem_map_of_mem (·.1) hnc)
      rw [List.count_cons_of_ne h1]

/-- The loop never renames, adds or removes a column. -/
theorem applyCols_colNames (f : List Value → List Value) (cols : List String)
    (t : Table) : colNames (applyCols t cols f) = colNames t := by
  rw [applyCols_eq_map, colNames, colNames, List.map_map]
  rfl

/-- If `f` preserves column length, so does the loop, for every column. -/
theorem applyCols_colLengths (f : List Value → List Value)
    (hf : ∀ vs, (f vs).length = vs.length) (cols : List String) (t : Table) :
    colLengths (applyCols t cols f) = colLengths t := by
  have hiter : ∀ (k : Nat) (vs : List Value), (f^[k] vs).length = vs.length := by
    intro k
    induction k with
    | zero => intro vs; rfl
    | succ n ihn =>
      intro vs
      rw [Function.iterate_succ_apply, ihn, hf]
  rw [applyCols_eq_map, colLengths, colLengths, List.map_map]
  apply List.map_congr_left
  intro nc _
  exact hiter _ _

/-- A column on which `f` is a no-op passes through the loop unchanged,
wherever it sits in the table. -/
theorem applyCols_col_fixed (f : List Value → List Value) (cols : List String)
    (t : Table) (i : Nat) (nc : String × List Value)
    (hnc : t[i]? = some nc) (hfix : f nc.2 = nc.2) :
    (applyCols t cols f)[i]? = some nc := by
  rw [applyCols_eq_map, List.getElem?_map, hnc]
  show some (nc.1, f^[cols.count nc.1] nc.2) = some nc
  rw [Function.iterate_fixed hfix]

theorem iterate_of_idem {f : List Value → List Value}
    (hf : ∀ vs, f (f vs) = f vs) :
    ∀ (k : Nat) (vs : List Value), f^[k] (f vs) = f vs := by
  intro k
  induction k with
  | zero => intro vs; rfl
  | succ n ihn =>
    intro vs
    rw [Function.iterate_succ_apply, hf, ihn]

/-- An idempotent column body makes the whole loop idempotent. -/
theorem applyCols_idem (f : List Value → List Value)
    (hf : ∀ vs, f (f vs) = f vs) (cols : List String) (t : Table) :
    applyCols (applyCols t cols f) cols f = applyCols t cols f := by
  rw [applyCols_eq_map, applyCols_eq_map, List.map_map]
  apply List.map_congr_left
  intro nc _
  simp only [Function.comp_apply]
  cases hk : cols.count nc.1 with
  | zero => rfl
  | succ m =>
    rw [Function.iterate_succ_apply, Function.iterate_succ_apply]
    rw [iterate_of_idem hf, iterate_of_idem hf, hf]

/- ----------------------------------------------------------------
Idempotence of the median-fill column body
---------------------------------------------------------------- -/

theorem toNumeric_idem (v : Value) : toNumeric (toNumeric v) = toNumeric v := by
  cases v <;> rfl

theorem fillnaOpt_length (m : Option ℚ) (vs : List Value) :
    (fillnaOpt m vs).length = vs.length := by
  cases m with
  | none => rfl
  | some q => exact List.length_map _ _

theorem fillCol_length (vs : List Value) : (fillCol vs).length = vs.length := by
  unfold fillCol
  rw [fillnaOpt_length, List.length_map]

theorem zscoreCol_length (vs : List Value) : (zscoreCol vs).length = vs.length := by
  unfold zscoreCol
  by_cases h : 2 ≤ (colNums (vs.map toNumeric)).length ∧
      0 < sampleVar (colNums (vs.map toNumeric))
  · rw [if_pos h, List.length_map]
  · rw [if_neg h]

/-- After a successful fill, the column has no missing cells. -/
theorem fillnaOpt_some_no_missing (q : ℚ) (vs : List Value) :
    ∀ v ∈ fillnaOpt (some q) vs, v ≠ .missing := by
  intro v hv
  unfold fillnaOpt at hv
  rw [List.mem_map] at hv
  obtain ⟨w, _, hw⟩ := hv
  subst hw
  cases w <;> simp

/-- Filling a column that has no missing cells is a no-op. -/
theorem fillnaOpt_of_no_missing (m : Option ℚ) (vs : List Value)
    (h : ∀ v ∈ vs, v ≠ .missing) : fillnaOpt m vs = vs := by
  cases m with
  | none => rfl
  | some q =>
    unfold fillnaOpt
    calc vs.map (fun v => match v with | .missing => Value.num q | w => w)
        = vs.map id := by
          apply List.map_congr_left
          intro v hv
          cases v with
          | missing => exact absurd rfl (h _ hv)
          | num p => rfl
          | str s => rfl
      _ = vs := List.map_id vs

/-- Re-coercion after a fill is a no-op (the filled column holds only
numbers and NaN). -/
theorem map_toNumeric_fillnaOpt (m : Option ℚ) (vs : List Value) :
    (fillnaOpt m (vs.map toNumeric)).map toNumeric
      = fillnaOpt m (vs.map toNumeric) := by
  cases m with
  | none =>
    show (vs.map toNumeric).map toNumeric = vs.map toNumeric
    rw [List.map_map]
    apply List.map_congr_left
    intro v _
    exact toNumeric_idem v
  | some q =>
    show (List.map (fun v => match v with | Value.missing => Value.num q | w => w)
          (vs.map toNumeric)).map toNumeric
        = List.map (fun v => match v with | Value.missing => Value.num q | w => w)
          (vs.map toNumeric)
    simp only [List.map_map]
    apply List.map_congr_left
    intro v _
    cases v <;> rfl

theorem fillCol_idem (vs : List Value) : fillCol (fillCol vs) = fillCol vs := by
  unfold fillCol
  rw [map_toNumeric_fillnaOpt]
  cases hm : medianQ (colNums (List.map toNumeric vs)) with
  | none =>
    show fillnaOpt (medianQ (colNums (List.map toNumeric vs)))
        (List.map toNumeric vs) = List.map toNumeric vs
    rw [hm]
    rfl
  | some q =>
    exact fillnaOpt_of_no_missing _ _ (fillnaOpt_some_no_missing q _)

/- ----------------------------------------------------------------
The mode computation: membership and minimality of `pickMin`
---------------------------------------------------------------- -/

theorem valueLE_refl (a : Value) : valueLE a a = true := by
  cases a <;> simp [valueLE]

theorem valueLE_total (a b : Value) : valueLE a b = true ∨ valueLE b a = true := by
  cases a <;> cases b <;> simp [valueLE]
  · exact le_total _ _
  · exact le_total _ _

theorem valueLE_trans (a b c : Value) (h1 : valueLE a b = true)
    (h2 : valueLE b c = true) : valueLE a c = true := by
  cases a <;> cases b <;> cases c <;> simp [valueLE] at h1 h2 ⊢ <;>
    exact le_trans h1 h2

theorem pickMin_mem : ∀ (cs : List Value) (c : Value), pickMin c cs ∈ c :: cs := by
  intro cs
  induction cs with
  | nil =>
    intro c
    simp [pickMin]
  | cons b bs ih =>
    intro c
    have hstep : pickMin c (b :: bs) = pickMin (if valueLE b c then b else c) bs := rfl
    rw [hstep]
    have hm := ih (if valueLE b c then b else c)
    rw [List.mem_cons] at hm
    rcases hm with h | h
    · rw [h]
      by_cases hb : valueLE b c
      · rw [if_pos hb]
        exact List.mem_cons_of_mem c (List.mem_cons_self b bs)
      · rw [if_neg hb]
        exact List.mem_cons_self c _
    · exact List.mem_cons_of_mem c (List.mem_cons_of_mem b h)

theorem pickMin_le : ∀ (cs : List Value) (c : Value),
    ∀ v ∈ c :: cs, valueLE (pickMin c cs) v = true := by
  intro cs
  induction cs with
  | nil =>
    intro c v hv
    rw [List.mem_singleton] at hv
    subst hv
    exact valueLE_refl v
  | cons b bs ih =>
    intro c v hv
    have hstep : pickMin c (b :: bs) = pickMin (if valueLE b c then b else c) bs := rfl
    rw [hstep]
    have hacc : valueLE (pickMin (if valueLE b c then b else c) bs)
        (if valueLE b c then b else c) = true :=
      ih _ _ (List.mem_cons_self _ _)
    have haccb : valueLE (if valueLE b c then b else c) b = true := by
      by_cases hb : valueLE b c
      · rw [if_pos hb]; exact valueLE_refl b
      · rw [if_neg hb]
        rcases valueLE_total b c with h | h
        · exact absurd h hb
        · exact h
    have haccc : valueLE (if valueLE b c then b else c) c = true := by
      by_cases hb : valueLE b c
      · rw [if_pos hb]; exact hb
      · rw [if_neg hb]; exact valueLE_refl c
    rw [List.mem_cons] at hv
    rcases hv with h | hv
    · subst h
      exact valueLE_trans _ _ _ hacc haccc
    rw [List.mem_cons] at hv
    rcases hv with h | hv
    · subst h
      exact valueLE_trans _ _ _ hacc haccb
    · exact ih _ _ (List.mem_cons_of_mem _ hv)

theorem mem_nonMissing_ne {vs : List Value} {v : Value} (h : v ∈ nonMissing vs) :
    v ≠ Value.missing := by
  unfold nonMissing at h
  rw [List.mem_filter] at h
  exact of_decide_eq_true h.2

theorem modeVal_spec {vs : List Value} {m : Value} (h : modeVal vs = some m) :
    m ∈ nonMissing vs ∧ (nonMissing vs).count m = maxCount vs ∧
      ∀ v ∈ nonMissing vs, (nonMissing vs).count v = maxCount vs →
        valueLE m v = true := by
  unfold modeVal at h
  cases hfil : (nonMissing vs).dedup.filter
      (fun v => (nonMissing vs).count v = maxCount vs) with
  | nil => rw [hfil] at h; cases h
  | cons c cs =>
    rw [hfil] at h
    have hm : m = pickMin c cs := by
      injection h with h'
      exact h'.symm
    subst hm
    have hmem : pickMin c cs ∈ c :: cs := pickMin_mem cs c
    have hmemf : pickMin c cs ∈ (nonMissing vs).dedup.filter
        (fun v => (nonMissing vs).count v = maxCount vs) := by
      rw [hfil]; exact hmem
    rw [List.mem_filter] at hmemf
    obtain ⟨hdedup, hcount⟩ := hmemf
    refine ⟨List.mem_dedup.mp hdedup, of_decide_eq_true hcount, ?_⟩
    intro v hv hvc
    apply pickMin_le
    rw [← hfil]
    rw [List.mem_filter]
    exact ⟨List.mem_dedup.mpr hv, decide_eq_true hvc⟩

theorem modeVal_ne_missing {vs : List Value} {m : Value} (h : modeVal vs = some m) :
    m ≠ Value.missing :=
  mem_nonMissing_ne (modeVal_spec h).1

/- ----------------------------------------------------------------
Idempotence of `handleCol`
---------------------------------------------------------------- -/

theorem fillAllMissing_no_missing {m : Value} (hm : m ≠ Value.missing)
    (vs : List Value) : ∀ v ∈ fillAllMissing m vs, v ≠ Value.missing := by
  intro v hv
  unfold fillAllMissing at hv
  rw [List.mem_map] at hv
  obtain ⟨w, _, hw⟩ := hv
  subst hw
  cases w with
  | missing => exact hm
  | num q => simp
  | str s => simp

theorem fillAllMissing_of_no_missing (m : Value) (vs : List Value)
    (h : ∀ v ∈ vs, v ≠ Value.missing) : fillAllMissing m vs = vs := by
  unfold fillAllMissing
  calc vs.map (fun v => match v with | Value.missing => m | w => w)
      = vs.map id := by
        apply List.map_congr_left
        intro v hv
        cases v with
        | missing => exact absurd rfl (h _ hv)
        | num q => rfl
        | str s => rfl
    _ = vs := List.map_id vs

theorem isObjectDtype_fillAllMissing (m : Value) (vs : List Value)
    (h : isObjectDtype vs = true) : isObjectDtype (fillAllMissing m vs) = true := by
  unfold isObjectDtype at h ⊢
  rw [List.any_eq_true] at h ⊢
  obtain ⟨v, hv, hvs⟩ := h
  cases v with
  | missing => cases hvs
  | num q => cases hvs
  | str s =>
    refine ⟨Value.str s, ?_, rfl⟩
    unfold fillAllMissing
    rw [List.mem_map]
    exact ⟨Value.str s, hv, rfl⟩

theorem isObjectDtype_fillnaOpt (m : Option ℚ) (vs : List Value)
    (h : isObjectDtype vs = false) : isObjectDtype (fillnaOpt m vs) = false := by
  cases m with
  | none => exact h
  | some q =>
    unfold isObjectDtype at h ⊢
    rw [List.any_eq_false] at h ⊢
    intro v hv
    unfold fillnaOpt at hv
    rw [List.mem_map] at hv
    obtain ⟨w, hw, hwv⟩ := hv
    subst hwv
    have := h w hw
    cases w with
    | missing => simp
    | num p => simp
    | str s => exact this

theorem handleCol_idem (vs : List Value) : handleCol (handleCol vs) = handleCol vs := by
  unfold handleCol
  by_cases hobj : isObjectDtype vs = true
  · rw [if_pos hobj, if_pos (isObjectDtype_fillAllMissing _ _ hobj)]
    have hm : (modeVal vs).getD (Value.str "Unknown") ≠ Value.missing := by
      cases hmv : modeVal vs with
      | none => simp
      | some m => simpa using modeVal_ne_missing hmv
    exact fillAllMissing_of_no_missing _ _ (fillAllMissing_no_missing hm vs)
  · have hobj' : isObjectDtype vs = false := by
      cases hb : isObjectDtype vs with
      | true => exact absurd hb hobj
      | false => rfl
    rw [if_neg hobj]
    have hobj2 : ¬ isObjectDtype (fillnaOpt (medianQ (colNums vs)) vs) = true := by
      rw [isObjectDtype_fillnaOpt _ _ hobj']
      simp
    rw [if_neg hobj2]
    cases hm : medianQ (colNums vs) with
    | none =>
      show fillnaOpt (medianQ (colNums vs)) vs = vs
      rw [hm]
      rfl
    | some q =>
      exact fillnaOpt_of_no_missing _ _ (fillnaOpt_some_no_missing q vs)

/- ----------------------------------------------------------------
Support lemmas for the claim theorems
---------------------------------------------------------------- -/

theorem zscoreColPP_length (vs : List Value) :
    (Preprocess.zscoreColPP vs).length = vs.length := by
  unfold Preprocess.zscoreColPP
  by_cases h : 2 ≤ (colNums vs).length ∧ 0 < sampleVar (colNums vs)
  · rw [if_pos h, List.length_map]
  · rw [if_neg h]

theorem filterTable_colNames (t : Table) (mask : List Bool) :
    colNames (filterTable t mask) = colNames t := by
  unfold filterTable colNames
  rw [List.map_map]
  rfl

theorem iqrStep_colNames {factor : ℚ} {t u : Table} {c : String}
    (h : iqrStep factor t c = .ok u) : colNames u = colNames t := by
  unfold iqrStep at h
  cases hlk : lookupCol t c with
  | none => rw [hlk] at h; cases h
  | some vs =>
    rw [hlk] at h
    dsimp only at h
    by_cases hobj : isObjectDtype vs = true
    · rw [if_pos hobj] at h
      injection h with h'
      rw [← h']
    · rw [if_neg hobj] at h
      injection h with h'
      rw [← h']
      exact filterTable_colNames t _

theorem removeOutliersGo_colNames (factor : ℚ) :
    ∀ (cols : List String) (t u : Table),
      removeOutliersGo factor t cols = .ok u → colNames u = colNames t := by
  intro cols
  induction cols with
  | nil =>
    intro t u h
    injection h with h'
    rw [h']
  | cons c cs ih =>
    intro t u h
    unfold removeOutliersGo at h
    cases hstep : iqrStep factor t c with
    | error e => rw [hstep] at h; cases h
    | ok v =>
      rw [hstep] at h
      rw [ih v u h, iqrStep_colNames hstep]

/-- `getD` with the NaN default commutes with a NaN-preserving cell map. -/
theorem getD_map_missing (g : Value → Value) (hg : g Value.missing = Value.missing) :
    ∀ (vs : List Value) (j : Nat),
      (vs.map g).getD j Value.missing = g (vs.getD j Value.missing)
  | [], j => by simp [hg]
  | v :: vs, 0 => rfl
  | v :: vs, j + 1 => by
    simpa using getD_map_missing g hg vs j

/-- Each cell of the Z-score column body is the original cell or the
pre-replacement median. -/
theorem zscoreCol_cell (vs : List Value) (j : Nat) :
    (zscoreCol vs).getD j Value.missing = vs.getD j Value.missing ∨
    (zscoreCol vs).getD j Value.missing
      = Value.num ((medianQ (colNums (vs.map toNumeric))).getD 0) := by
  unfold zscoreCol
  by_cases h : 2 ≤ (colNums (vs.map toNumeric)).length ∧
      0 < sampleVar (colNums (vs.map toNumeric))
  · rw [if_pos h]
    rw [getD_map_missing _ rfl]
    cases vs.getD j Value.missing with
    | missing => exact Or.inl rfl
    | str s => exact Or.inl rfl
    | num q =>
      by_cases hf : (q - meanQ (colNums (vs.map toNumeric))) ^ 2 >
          9 * sampleVar (colNums (vs.map toNumeric))
      · right
        show (if _ > _ then _ else _) = _
        rw [if_pos hf]
      · left
        show (if _ > _ then _ else _) = _
        rw [if_neg hf]
  · rw [if_neg h]
    exact Or.inl rfl

/- ----------------------------------------------------------------
Claim theorems
---------------------------------------------------------------- -/

/-- C1 (amended): the Z-score policy never changes the column set or any
column's row count, and each cell of a corrected column is either the
original cell or the column median computed before any replacement; the
IQR policy preserves the column set on success but filters rows out of the
table instead of replacing cells. -/
theorem C1_outlier_invariance_amended :
    ∀ (t : Table) (cols : List String) (factor : ℚ),
      colNames (Cleaning.remove_outliers_zscore t cols) = colNames t ∧
      colLengths (Cleaning.remove_outliers_zscore t cols) = colLengths t ∧
      (∀ vs j, (zscoreCol vs).getD j Value.missing = vs.getD j Value.missing ∨
        (zscoreCol vs).getD j Value.missing
          = Value.num ((medianQ (colNums (vs.map toNumeric))).getD 0)) ∧
      (∀ u, remove_outliers t cols factor = .ok u → colNames u = colNames t) := by
  intro t cols factor
  refine ⟨applyCols_colNames _ _ _, applyCols_colLengths _ zscoreCol_length _ _,
    zscoreCol_cell, ?_⟩
  intro u h
  exact removeOutliersGo_colNames factor cols t u h

/-- Witness for C1 at a concrete table: the Z-score corrector keeps the
column set, and the IQR corrector returns a table with the same single
column name. -/
theorem C1_outlier_invariance_witness :
    colNames (Cleaning.remove_outliers_zscore
        [("ghi", [Value.num 1, Value.num 2, Value.num 3, Value.num 1000])] ["ghi"])
      = colNames [("ghi", [Value.num 1, Value.num 2, Value.num 3, Value.num 1000])] ∧
    remove_outliers [("ghi", [Value.num 1, Value.num 2, Value.num 3, Value.num 1000])]
        ["ghi"] (3/2) = .ok [("ghi", [Value.num 1, Value.num 2, Value.num 3])] ∧
    colNames [("ghi", [Value.num 1, Value.num 2, Value.num 3])]
      = colNames [("ghi", [Value.num 1, Value.num 2, Value.num 3, Value.num 1000])] := by
  refine ⟨(C1_outlier_invariance_amended _ ["ghi"] (3/2)).1, ?_, ?_⟩
  · with_unfolding_all decide
  · exact (C1_outlier_invariance_amended _ ["ghi"] (3/2)).2.2.2 _
      (by with_unfolding_all decide)

/-- C1 counterexample: on `ghi = [1, 2, 3, 1000]` the IQR policy computes
the fence `[−374, 628]` and drops the row holding `1000`, so the returned
table has 3 rows, not 4 — a row is dropped, contradicting the claim. -/
theorem C1_counterexample :
    remove_outliers [("ghi", [Value.num 1, Value.num 2, Value.num 3, Value.num 1000])]
        ["ghi"]
      = .ok [("ghi", [Value.num 1, Value.num 2, Value.num 3])] ∧
    colLengths [("ghi", [Value.num 1, Value.num 2, Value.num 3])]
      ≠ colLengths [("ghi", [Value.num 1, Value.num 2, Value.num 3, Value.num 1000])] := by
  with_unfolding_all decide

/-- C2 (amended): the normalizer maps every column label independently and
never raises: when two labels collide it returns a table with duplicate
labels, silently — no `SchemaError` exists anywhere in the code.  Cell
values are untouched. -/
theorem C2_normalizer_no_error_amended :
    ∀ t : Table,
      colNames (clean_column_names t) = (colNames t).map normalizeName ∧
      (clean_column_names t).map (·.2) = t.map (·.2) := by
  intro t
  constructor
  · unfold clean_column_names colNames
    rw [List.map_map, List.map_map]
    rfl
  · unfold clean_column_names
    rw [List.map_map]
    rfl

/-- C2 counterexample: `"GHI "` and `"ghi"` both normalize to `"ghi"`, and
`clean_column_names` returns the two-column table with the duplicate label
`"ghi"` instead of raising a `SchemaError`. -/
theorem C2_counterexample :
    clean_column_names [("GHI ", []), ("ghi", [])] = [("ghi", []), ("ghi", [])] ∧
    colNames (clean_column_names [("GHI ", []), ("ghi", [])]) = ["ghi", "ghi"] := by
  with_unfolding_all decide

/-- C3: a target column whose non-missing numeric values have zero variance
(so zero standard deviation) is returned unchanged by the Z-score corrector:
the `std > 0` guard of the source makes σ = 0 a no-flag condition. -/
theorem C3_zscore_zero_variance :
    ∀ (t : Table) (cols : List String) (i : Nat) (nc : String × List Value),
      t[i]? = some nc →
      sampleVar (colNums (nc.2.map toNumeric)) = 0 →
      (Cleaning.remove_outliers_zscore t cols)[i]? = some nc := by
  intro t cols i nc hi hvar
  apply applyCols_col_fixed _ _ _ _ _ hi
  unfold zscoreCol
  rw [if_neg]
  rintro ⟨-, h2⟩
  rw [hvar] at h2
  exact lt_irrefl 0 h2

/-- Witness for C3: the constant column `[5, 5, 5, 5]` has variance 0 and
passes through the Z-score corrector unchanged. -/
theorem C3_zscore_zero_variance_witness :
    ([("ghi", [Value.num 5, Value.num 5, Value.num 5, Value.num 5])] : Table)[0]?
        = some ("ghi", [Value.num 5, Value.num 5, Value.num 5, Value.num 5]) ∧
    sampleVar (colNums ([Value.num 5, Value.num 5, Value.num 5,
        Value.num 5].map toNumeric)) = 0 ∧
    (Cleaning.remove_outliers_zscore
        [("ghi", [Value.num 5, Value.num 5, Value.num 5, Value.num 5])] ["ghi"])[0]?
      = some ("ghi", [Value.num 5, Value.num 5, Value.num 5, Value.num 5]) := by
  refine ⟨by with_unfolding_all decide, by with_unfolding_all decide, ?_⟩
  exact C3_zscore_zero_variance _ ["ghi"] 0 _ (by with_unfolding_all decide)
    (by with_unfolding_all decide)

/-- C4 (amended): the pipeline is exactly Column Normalizer, then the
(coercion-only) Missing-Value Imputer over the fixed key-column set, then
the Z-score Outlier Corrector over the same set — with no Duplicate
Remover stage; consequently it never changes the row count, and its output
labels are the normalized input labels. -/
theorem C4_pipeline_composition_amended :
    ∀ t : Table,
      Preprocess.preprocess_dataset t
        = Preprocess.remove_outliers_zscore
            (Preprocess.fill_missing_values (standardize_columns t) Preprocess.keyCols)
            Preprocess.keyCols ∧
      colNames (Preprocess.preprocess_dataset t) = (colNames t).map normalizeName ∧
      colLengths (Preprocess.preprocess_dataset t) = colLengths t := by
  intro t
  refine ⟨rfl, ?_, ?_⟩
  · show colNames (Preprocess.remove_outliers_zscore
        (Preprocess.fill_missing_values (standardize_columns t) Preprocess.keyCols)
        Preprocess.keyCols) = (colNames t).map normalizeName
    unfold Preprocess.remove_outliers_zscore Preprocess.fill_missing_values
    rw [applyCols_colNames, applyCols_colNames]
    unfold standardize_columns colNames
    rw [List.map_map, List.map_map]
    rfl
  · show colLengths (Preprocess.remove_outliers_zscore
        (Preprocess.fill_missing_values (standardize_columns t) Preprocess.keyCols)
        Preprocess.keyCols) = colLengths t
    unfold Preprocess.remove_outliers_zscore Preprocess.fill_missing_values
    rw [applyCols_colLengths _ zscoreColPP_length,
      applyCols_colLengths _ (fun vs => by rw [List.length_map])]
    unfold standardize_columns colLengths
    rw [List.map_map]
    rfl

/-- C4 counterexample: a table with two identical rows passes through the
pipeline with both rows intact, while the Duplicate Remover the claim
includes would have dropped one — so the pipeline is not the claimed
four-stage composition. -/
theorem C4_counterexample :
    Preprocess.preprocess_dataset [("ghi", [Value.num 1, Value.num 1])]
      = [("ghi", [Value.num 1, Value.num 1])] ∧
    remove_duplicates [("ghi", [Value.num 1, Value.num 1])]
      = [("ghi", [Value.num 1])] ∧
    Preprocess.preprocess_dataset [("ghi", [Value.num 1, Value.num 1])]
      ≠ remove_duplicates [("ghi", [Value.num 1, Value.num 1])] := by
  with_unfolding_all decide

/-- C5: on `ghi = [1, NaN, 3, 1000]` the `cleaning.py` imputer fills the
missing slot with the median 3 of the non-missing values, as the claim
states; the `preprocess.py` copy discards the result of `fillna` (no
assignment on its line 29) and returns the gap unfilled, contradicting the
claim and its own docstring. -/
theorem C5_median_fill_divergence :
    Cleaning.fill_missing_values
        [("ghi", [Value.num 1, Value.missing, Value.num 3, Value.num 1000])] ["ghi"]
      = [("ghi", [Value.num 1, Value.num 3, Value.num 3, Value.num 1000])] ∧
    Preprocess.fill_missing_values
        [("ghi", [Value.num 1, Value.missing, Value.num 3, Value.num 1000])] ["ghi"]
      = [("ghi", [Value.num 1, Value.missing, Value.num 3, Value.num 1000])] := by
  with_unfolding_all decide

/-- C6 (amended): in every object-dtype column the imputer fills each
missing cell with one fixed value: the mode of the non-missing cells —
where a frequency tie is broken by the least value in pandas' ascending
sort order, not by first encounter — or the label `"Unknown"` when no
non-missing value exists. -/
theorem C6_mode_fill_amended :
    ∀ (t : Table) (i : Nat) (nc : String × List Value),
      t[i]? = some nc → isObjectDtype nc.2 = true →
      ∃ m, (handle_missing t)[i]? = some (nc.1, fillAllMissing m nc.2) ∧
        ((modeVal nc.2 = none ∧ m = Value.str "Unknown") ∨
         (modeVal nc.2 = some m ∧ m ∈ nonMissing nc.2 ∧
          (nonMissing nc.2).count m = maxCount nc.2 ∧
          ∀ v ∈ nonMissing nc.2, (nonMissing nc.2).count v = maxCount nc.2 →
            valueLE m v = true)) := by
  intro t i nc hi hobj
  refine ⟨(modeVal nc.2).getD (Value.str "Unknown"), ?_, ?_⟩
  · unfold handle_missing
    rw [List.getElem?_map, hi]
    show some (nc.1, handleCol nc.2) = _
    unfold handleCol
    rw [if_pos hobj]
  · cases hmv : modeVal nc.2 with
    | none =>
      left
      exact ⟨rfl, rfl⟩
    | some m =>
      right
      obtain ⟨h1, h2, h3⟩ := modeVal_spec hmv
      exact ⟨rfl, h1, h2, h3⟩

/-- Witness for C6: the column `["A", NaN, "B", "B"]` has the unique mode
`"B"`, and the imputer fills the gap with it. -/
theorem C6_mode_fill_witness :
    ∃ m, (handle_missing [("category",
        [Value.str "A", Value.missing, Value.str "B", Value.str "B"])])[0]?
        = some ("category", fillAllMissing m
            [Value.str "A", Value.missing, Value.str "B", Value.str "B"]) ∧
      ((modeVal [Value.str "A", Value.missing, Value.str "B", Value.str "B"] = none ∧
          m = Value.str "Unknown") ∨
       (modeVal [Value.str "A", Value.missing, Value.str "B", Value.str "B"] = some m ∧
        m ∈ nonMissing [Value.str "A", Value.missing, Value.str "B", Value.str "B"] ∧
        (nonMissing [Value.str "A", Value.missing, Value.str "B",
            Value.str "B"]).count m
          = maxCount [Value.str "A", Value.missing, Value.str "B", Value.str "B"] ∧
        ∀ v ∈ nonMissing [Value.str "A", Value.missing, Value.str "B", Value.str "B"],
          (nonMissing [Value.str "A", Value.missing, Value.str "B",
              Value.str "B"]).count v
            = maxCount [Value.str "A", Value.missing, Value.str "B", Value.str "B"] →
          valueLE m v = true)) :=
  C6_mode_fill_amended
    [("category", [Value.str "A", Value.missing, Value.str "B", Value.str "B"])] 0
    ("category", [Value.str "A", Value.missing, Value.str "B", Value.str "B"])
    (by with_unfolding_all decide) (by with_unfolding_all decide)

/-- C6 counterexample: in `["B", "A", "A", "B", NaN]` both `"A"` and `"B"`
occur twice; the first-encountered value is `"B"`, but the imputer fills
with `"A"` — pandas `mode()[0]` takes the least value in sort order, so
the claimed first-encounter tie-break is wrong. -/
theorem C6_counterexample :
    handle_missing [("category",
        [Value.str "B", Value.str "A", Value.str "A", Value.str "B", Value.missing])]
      = [("category",
        [Value.str "B", Value.str "A", Value.str "A", Value.str "B", Value.str "A"])] ∧
    handle_missing [("category",
        [Value.str "B", Value.str "A", Value.str "A", Value.str "B", Value.missing])]
      ≠ [("category",
        [Value.str "B", Value.str "A", Value.str "A", Value.str "B", Value.str "B"])] := by
  with_unfolding_all decide

/-- C7: the Missing-Value Imputer is idempotent — a second pass of
`fill_missing_values` with the same target columns, or of `handle_missing`,
returns the table of the first pass unchanged (nothing is left to fill). -/
theorem C7_imputer_idempotent :
    ∀ (t : Table) (cols : List String),
      Cleaning.fill_missing_values (Cleaning.fill_missing_values t cols) cols
        = Cleaning.fill_missing_values t cols ∧
      handle_missing (handle_missing t) = handle_missing t := by
  intro t cols
  constructor
  · exact applyCols_idem fillCol fillCol_idem cols t
  · unfold handle_missing
    rw [List.map_map]
    apply List.map_congr_left
    intro nc _
    show (nc.1, handleCol (handleCol nc.2)) = (nc.1, handleCol nc.2)
    rw [handleCol_idem]

/-- C8 (amended): the Z-score policy passes a target column with fewer
than 2 non-missing numeric values through unchanged (pandas `std` is NaN
there, so the `std > 0` guard fails); the IQR policy instead filters rows
against the quantile bounds — with zero non-missing values every row is
dropped — and neither policy emits any insufficient-data signal. -/
theorem C8_insufficient_data_amended :
    ∀ (t : Table) (cols : List String) (i : Nat) (nc : String × List Value),
      t[i]? = some nc →
      (colNums (nc.2.map toNumeric)).length < 2 →
      (Cleaning.remove_outliers_zscore t cols)[i]? = some nc := by
  intro t cols i nc hi hlen
  apply applyCols_col_fixed _ _ _ _ _ hi
  unfold zscoreCol
  rw [if_neg]
  rintro ⟨h1, -⟩
  omega

/-- Witness for C8: a column holding one number and one NaN has a single
non-missing value and passes through the Z-score corrector unchanged. -/
theorem C8_insufficient_data_witness :
    ([("ghi", [Value.num 5, Value.missing])] : Table)[0]?
        = some ("ghi", [Value.num 5, Value.missing]) ∧
    (colNums ([Value.num 5, Value.missing].map toNumeric)).length < 2 ∧
    (Cleaning.remove_outliers_zscore
        [("ghi", [Value.num 5, Value.missing])] ["ghi"])[0]?
      = some ("ghi", [Value.num 5, Value.missing]) := by
  refine ⟨by with_unfolding_all decide, by with_unfolding_all decide, ?_⟩
  exact C8_insufficient_data_amended _ ["ghi"] 0 _ (by with_unfolding_all decide)
    (by with_unfolding_all decide)

/-- C8 counterexample: on a column whose only cell is NaN (zero non-missing
values, so fewer than 2) the IQR policy computes NaN bounds, every
comparison is false, and the sole row is dropped — the table is not passed
through unchanged. -/
theorem C8_counterexample :
    remove_outliers [("ghi", [Value.missing])] ["ghi"] = .ok [("ghi", [])] ∧
    remove_outliers [("ghi", [Value.missing])] ["ghi"]
      ≠ .ok [("ghi", [Value.missing])] := by
  with_unfolding_all decide

/-- C9 (amended): a requested target column absent from the table is a
no-op for the Imputer and for the Z-score corrector, but the IQR corrector
indexes the column unconditionally and fails with a `KeyError` naming it. -/
theorem C9_absent_column_amended :
    ∀ (t : Table) (c : String) (cols : List String) (factor : ℚ),
      c ∉ colNames t →
      Cleaning.fill_missing_values t (c :: cols) = Cleaning.fill_missing_values t cols ∧
      Cleaning.remove_outliers_zscore t (c :: cols)
        = Cleaning.remove_outliers_zscore t cols ∧
      remove_outliers t (c :: cols) factor = .error c := by
  intro t c cols factor hc
  have hfind : lookupCol t c = none := by
    unfold lookupCol
    have hnone : t.find? (fun nc => nc.1 == c) = none := by
      rw [List.find?_eq_none]
      intro nc hnc he
      rw [beq_iff_eq] at he
      exact hc (he ▸ List.mem_map_of_mem (·.1) hnc)
    rw [hnone]
    rfl
  refine ⟨?_, ?_, ?_⟩
  · show applyCols (if c ∈ colNames t then updateCol t c fillCol else t) cols fillCol
        = applyCols t cols fillCol
    rw [if_neg hc]
  · show applyCols (if c ∈ colNames t then updateCol t c zscoreCol else t) cols zscoreCol
        = applyCols t cols zscoreCol
    rw [if_neg hc]
  · show (match iqrStep factor t c with
        | .error e => .error e
        | .ok u => removeOutliersGo factor u cols) = Except.error c
    unfold iqrStep
    rw [hfind]

/-- Witness for C9: requesting `"ghi"` on a table whose only column is
`"foo"` is a no-op for the imputer and a `KeyError` for the IQR corrector. -/
theorem C9_absent_column_witness :
    ("ghi" : String) ∉ colNames [("foo", [Value.num 1])] ∧
    Cleaning.fill_missing_values [("foo", [Value.num 1])] ["ghi"]
      = Cleaning.fill_missing_values [("foo", [Value.num 1])] [] ∧
    remove_outliers [("foo", [Value.num 1])] ["ghi"] (3/2) = .error "ghi" :=
  ⟨by decide,
   (C9_absent_column_amended [("foo", [Value.num 1])] "ghi" [] (3/2) (by decide)).1,
   (C9_absent_column_amended [("foo", [Value.num 1])] "ghi" [] (3/2) (by decide)).2.2⟩

/-- C9 counterexample: with target `["ghi"]` on a table holding only
`"foo"`, the imputer passes through but the IQR corrector fails with a
`KeyError` — so the absent column is not a no-op for every stage. -/
theorem C9_counterexample :
    remove_outliers [("foo", [Value.num 1])] ["ghi"] = .error "ghi" ∧
    Cleaning.fill_missing_values [("foo", [Value.num 1])] ["ghi"]
      = [("foo", [Value.num 1])] := by
  with_unfolding_all decide

/-- C10: the Column Normalizer is idempotent — re-normalizing an already
normalized table (either copy of the function) returns an equal table. -/
theorem C10_normalizer_idempotent :
    ∀ t : Table,
      clean_column_names (clean_column_names t) = clean_column_names t ∧
      standardize_columns (standardize_columns t) = standardize_columns t := by
  intro t
  constructor
  · unfold clean_column_names
    rw [List.map_map]
    apply List.map_congr_left
    intro nc _
    show (normalizeName (normalizeName nc.1), nc.2) = (normalizeName nc.1, nc.2)
    rw [normalizeName_idem]
  · unfold standardize_columns
    rw [List.map_map]
    apply List.map_congr_left
    intro nc _
    show (normalizeName (normalizeName nc.1), nc.2) = (normalizeName nc.1, nc.2)
    rw [normalizeName_idem]
